import Mathlib

/-!
Verification development for the `InbetweenFace` cell of the
vector-animation-complex core (`src/VAC/VectorAnimationComplex/InbetweenFace.cpp`).

The definitions below are a shallow embedding of that translation unit.
Collaborator code that is part of the repository but not in the visible slice
(`AnimatedCycle`, the star bookkeeping of `Cell`, `InbetweenCell::exists`,
`detail::tesselatePolygon`, the `SaveAndLoad` field helpers, the `VAC`
registry) is modelled from the specification; every such definition carries a
doc comment starting with "Modelled from the spec:".
-/

namespace VPaint

/-- Identity of a cell of the complex.  Key faces are a different C++ type
(`KeyFace`) than the key vertices and edges referenced inside animated
cycles, so their identities are tagged apart, mirroring the type separation
of the pointers stored in `beforeFaces_` / `afterFaces_` versus the cells of
a cycle. -/
inductive CellId where
  | face (id : Nat) : CellId
  | nonface (id : Nat) : CellId
deriving DecidableEq

/-- Modelled from the spec: `AnimatedCycle` (its implementation file is not in
the visible slice) — a time-varying closed boundary loop carrying an ordered
list of oriented half-edge references (cell identity and direction bit), the
key vertices its nodes reference, the key cells it depends on at the start
and end of its validity interval, and its sampling function (`sample(time)`
resolves every half-edge to instantaneous geometry and concatenates the
samples into one closed polyline). -/
structure AnimatedCycle where
  halfedges : List (Nat × Bool)
  verts : List Nat
  beforeC : Finset Nat
  afterC : Finset Nat
  sampling : ℚ → List (ℚ × ℚ)

/-- Modelled from the spec: `AnimatedCycle::sample(time)` as a returned
polyline. -/
def AnimatedCycle.sample (c : AnimatedCycle) (t : ℚ) : List (ℚ × ℚ) :=
  c.sampling t

/-- Modelled from the spec: `AnimatedCycle::cells()` — every cell any
half-edge (or node vertex) of the cycle references. -/
def AnimatedCycle.cells (c : AnimatedCycle) : Finset CellId :=
  (c.halfedges.map (fun h => CellId.nonface h.1)).toFinset ∪
    (c.verts.map CellId.nonface).toFinset

/-- Modelled from the spec: `AnimatedCycle::beforeCells()` — the key cells the
cycle depends on at the start of its validity interval (vertices and edges,
never key faces). -/
def AnimatedCycle.beforeCells (c : AnimatedCycle) : Finset CellId :=
  c.beforeC.image CellId.nonface

/-- Modelled from the spec: `AnimatedCycle::afterCells()`. -/
def AnimatedCycle.afterCells (c : AnimatedCycle) : Finset CellId :=
  c.afterC.image CellId.nonface

/-- The default-constructed, empty (invalid) `AnimatedCycle()`. -/
def emptyAnimatedCycle : AnimatedCycle :=
  ⟨[], [], ∅, ∅, fun _ => []⟩

/-- Modelled from the spec: `AnimatedCycle::replaceVertex(old, new)` rewrites
endpoint references across the cycle that used `old`; no-op if absent. -/
def AnimatedCycle.replaceVertex (c : AnimatedCycle) (o n : Nat) : AnimatedCycle :=
  { c with verts := c.verts.map (fun v => if v = o then n else v) }

/-- Modelled from the spec: `AnimatedCycle::replaceHalfedge(old, new)` swaps
one half-edge reference for another, preserving position in the sequence. -/
def AnimatedCycle.replaceHalfedge (c : AnimatedCycle) (o n : Nat × Bool) : AnimatedCycle :=
  { c with halfedges := c.halfedges.map (fun h => if h = o then n else h) }

/-- Modelled from the spec: `AnimatedCycle::replaceEdges(oldEdge, newEdges)` —
every occurrence of `oldEdge` is replaced by the oriented chain of
`newEdges`; a reversed occurrence gets the reversed chain with flipped
direction bits. -/
def AnimatedCycle.replaceEdges (c : AnimatedCycle) (o : Nat) (news : List Nat) : AnimatedCycle :=
  { c with halfedges := c.halfedges.flatMap (fun h =>
      if h.1 = o then
        if h.2 then news.map (fun e => (e, true))
        else news.reverse.map (fun e => (e, false))
      else [h]) }

/-- The state of one `InbetweenFace`: its ordered animated cycles, the
explicit before/after key-face identity sets, and (modelled from the spec,
the `InbetweenCell` base class not being in the visible slice) the endpoints
of its validity interval. -/
structure InbetweenFace where
  cycles_ : List AnimatedCycle
  beforeFaces_ : Finset Nat
  afterFaces_ : Finset Nat
  tBefore : ℚ
  tAfter : ℚ

/-- Modelled from the spec: `InbetweenCell::exists(time)` — the face exists at
the instants strictly inside its validity interval. -/
def InbetweenFace.existsAt (f : InbetweenFace) (t : ℚ) : Prop :=
  f.tBefore < t ∧ t < f.tAfter

instance instDecExistsAt (f : InbetweenFace) (t : ℚ) : Decidable (f.existsAt t) :=
  inferInstanceAs (Decidable (_ ∧ _))

/-- `InbetweenFace::numAnimatedCycles()`. -/
def InbetweenFace.numAnimatedCycles (f : InbetweenFace) : Nat :=
  f.cycles_.length

/-- `InbetweenFace::spatialBoundary()`: start from the empty set and unite the
cells of every cycle, mirroring the loop of the source. -/
def InbetweenFace.spatialBoundary (f : InbetweenFace) : Finset CellId :=
  f.cycles_.foldl (fun res c => res ∪ c.cells) ∅

/-- `InbetweenFace::beforeCells()`: start from `beforeFaces_` and unite each
cycle's `beforeCells()`, mirroring the loop of the source. -/
def InbetweenFace.beforeCells (f : InbetweenFace) : Finset CellId :=
  f.cycles_.foldl (fun res c => res ∪ c.beforeCells) (f.beforeFaces_.image CellId.face)

/-- `InbetweenFace::afterCells()`: start from `afterFaces_` and unite each
cycle's `afterCells()`. -/
def InbetweenFace.afterCells (f : InbetweenFace) : Finset CellId :=
  f.cycles_.foldl (fun res c => res ∪ c.afterCells) (f.afterFaces_.image CellId.face)

/-- `createPolygonData(cycles, time)` (anonymous namespace of the source):
one contour per cycle, each sampled point extended with `z = 0`. -/
def createPolygonData (cycles : List AnimatedCycle) (time : ℚ) :
    List (List (ℚ × ℚ × ℚ)) :=
  cycles.map (fun cycle => (cycle.sample time).map (fun p => (p.1, p.2, 0)))

/-- A triangle of the output mesh: three 3D points. -/
abbrev Triangle := (ℚ × ℚ × ℚ) × (ℚ × ℚ × ℚ) × (ℚ × ℚ × ℚ)

/-- Modelled from the spec: one contour's share of `detail::tesselatePolygon`
— a contour with fewer than 3 points produces no triangles; a contour with
`n ≥ 3` points is tessellated (modelled as a triangle fan from its first
point). -/
def fanContour (contour : List (ℚ × ℚ × ℚ)) : List Triangle :=
  match contour with
  | [] => []
  | p0 :: rest => (rest.zip rest.tail).map (fun q => (p0, q.1, q.2))

/-- Modelled from the spec: `detail::tesselatePolygon` (the Triangulation
Engine is an external collaborator) — best-effort tessellation of the listed
contours; hole subtraction is not modelled, only the triangle-count contract
of the spec. -/
def tesselatePolygon (polygon : List (List (ℚ × ℚ × ℚ))) : List Triangle :=
  polygon.flatMap fanContour

/-- `computeTrianglesFromCycles(cycles, triangles, time)` of the source's
anonymous namespace. -/
def computeTrianglesFromCycles (cycles : List AnimatedCycle) (time : ℚ) : List Triangle :=
  tesselatePolygon (createPolygonData cycles time)

/-- `InbetweenFace::triangulate_(time, out)`: clear the output, then compute
triangles only if the face exists at `time`. -/
def InbetweenFace.triangulate_ (f : InbetweenFace) (time : ℚ) : List Triangle :=
  if f.existsAt time then computeTrianglesFromCycles f.cycles_ time else []

/-- `InbetweenFace::getSampling(time)`: the polygon data of the cycles at
`time`, with each 3D point truncated back to 2D.  No existence check is
performed. -/
def InbetweenFace.getSampling (f : InbetweenFace) (time : ℚ) :
    List (List (ℚ × ℚ)) :=
  (createPolygonData f.cycles_ time).map (fun contour =>
    contour.map (fun a => (a.1, a.2.1)))

/-- A key edge as seen by `updateBoundary_impl`: its identity and the instant
it lives at. -/
structure KeyEdge where
  id : Nat
  time : ℚ

/-- `InbetweenFace::updateBoundary_impl(KeyVertex*, KeyVertex*)`: forward the
vertex rewrite to every cycle. -/
def InbetweenFace.updateBoundary_vertex (f : InbetweenFace) (o n : Nat) : InbetweenFace :=
  { f with cycles_ := f.cycles_.map (fun c => c.replaceVertex o n) }

/-- `InbetweenFace::updateBoundary_impl(KeyHalfedge, KeyHalfedge)`: forward
the half-edge rewrite to every cycle. -/
def InbetweenFace.updateBoundary_halfedge (f : InbetweenFace) (o n : Nat × Bool) : InbetweenFace :=
  { f with cycles_ := f.cycles_.map (fun c => c.replaceHalfedge o n) }

/-- `InbetweenFace::updateBoundary_impl(KeyEdge*, KeyEdgeList)`: nothing to do
if the old edge is only in the temporal boundary (its time is outside the
face's validity interval); otherwise forward the splice to every cycle. -/
def InbetweenFace.updateBoundary_edges (f : InbetweenFace) (oldEdge : KeyEdge)
    (newEdges : List Nat) : InbetweenFace :=
  if f.existsAt oldEdge.time then
    { f with cycles_ := f.cycles_.map (fun c => c.replaceEdges oldEdge.id newEdges) }
  else f

/-- The reverse-reference index restricted to one face: which cells currently
hold that face in their spatial star, their temporal-star-after, and their
temporal-star-before.  (Each cell's star is kept on the cell in C++; this is
the projection "does it contain the face under verification".) -/
structure StarState where
  spatial : Finset CellId
  tAfterStar : Finset CellId
  tBeforeStar : Finset CellId

/-- Modelled from the spec: `Cell::addMeToStarOfBoundary_()` — register the
face in the star of every cell of its spatial boundary, of its before cells
(their temporal-star-after) and of its after cells (their
temporal-star-before). -/
def addMeToStarOfBoundary_ (f : InbetweenFace) (s : StarState) : StarState :=
  ⟨s.spatial ∪ f.spatialBoundary,
   s.tAfterStar ∪ f.beforeCells,
   s.tBeforeStar ∪ f.afterCells⟩

/-- Modelled from the spec: `Cell::removeMeFromStarOfBoundary_()` — deregister
the face from the star of every currently referenced cell. -/
def removeMeFromStarOfBoundary_ (f : InbetweenFace) (s : StarState) : StarState :=
  ⟨s.spatial \ f.spatialBoundary,
   s.tAfterStar \ f.beforeCells,
   s.tBeforeStar \ f.afterCells⟩

/-- The observable state of one face together with its star registrations and
the number of geometry-changed notifications emitted so far
(`processGeometryChanged_` is modelled from the spec as an event counter). -/
structure FaceState where
  face : InbetweenFace
  star : StarState
  geomChanged : Nat

/-- `InbetweenFace::addAnimatedCycle()` — append an empty (invalid) cycle. -/
def FaceState.addAnimatedCycleEmpty (st : FaceState) : FaceState :=
  ⟨{ st.face with cycles_ := st.face.cycles_ ++ [emptyAnimatedCycle] }, st.star, st.geomChanged⟩

/-- `InbetweenFace::setCycle(i, cycle)`: deregister from the star, overwrite
cycle `i`, re-register, then emit the geometry-changed notification. -/
def FaceState.setCycle (st : FaceState) (i : Nat) (c : AnimatedCycle) : FaceState :=
  let s1 := removeMeFromStarOfBoundary_ st.face st.star
  let f2 := { st.face with cycles_ := st.face.cycles_.set i c }
  ⟨f2, addMeToStarOfBoundary_ f2 s1, st.geomChanged + 1⟩

/-- `InbetweenFace::addAnimatedCycle(cycle)`: append an empty cycle, then
`setCycle(numAnimatedCycles()-1, cycle)`. -/
def FaceState.addAnimatedCycle (st : FaceState) (c : AnimatedCycle) : FaceState :=
  let st1 := st.addAnimatedCycleEmpty
  st1.setCycle (st1.face.numAnimatedCycles - 1) c

/-- `InbetweenFace::removeCycle(i)`: deregister, remove cycle `i`,
re-register, notify. -/
def FaceState.removeCycle (st : FaceState) (i : Nat) : FaceState :=
  let s1 := removeMeFromStarOfBoundary_ st.face st.star
  let f2 := { st.face with cycles_ := st.face.cycles_.eraseIdx i }
  ⟨f2, addMeToStarOfBoundary_ f2 s1, st.geomChanged + 1⟩

/-- `InbetweenFace::setBeforeFaces(beforeFaces)`: deregister, assign,
re-register. -/
def FaceState.setBeforeFaces (st : FaceState) (bf : Finset Nat) : FaceState :=
  let s1 := removeMeFromStarOfBoundary_ st.face st.star
  let f2 := { st.face with beforeFaces_ := bf }
  ⟨f2, addMeToStarOfBoundary_ f2 s1, st.geomChanged⟩

/-- `InbetweenFace::setAfterFaces(afterFaces)`. -/
def FaceState.setAfterFaces (st : FaceState) (af : Finset Nat) : FaceState :=
  let s1 := removeMeFromStarOfBoundary_ st.face st.star
  let f2 := { st.face with afterFaces_ := af }
  ⟨f2, addMeToStarOfBoundary_ f2 s1, st.geomChanged⟩

/-- `InbetweenFace::addBeforeFace(beforeFace)`: insert into the set, then
register incrementally in the temporal-star-after of only that face. -/
def FaceState.addBeforeFace (st : FaceState) (id : Nat) : FaceState :=
  ⟨{ st.face with beforeFaces_ := insert id st.face.beforeFaces_ },
   { st.star with tAfterStar := insert (CellId.face id) st.star.tAfterStar },
   st.geomChanged⟩

/-- `InbetweenFace::addAfterFace(afterFace)`. -/
def FaceState.addAfterFace (st : FaceState) (id : Nat) : FaceState :=
  ⟨{ st.face with afterFaces_ := insert id st.face.afterFaces_ },
   { st.star with tBeforeStar := insert (CellId.face id) st.star.tBeforeStar },
   st.geomChanged⟩

/-- `InbetweenFace::removeBeforeFace(beforeFace)`: remove from the set, then
deregister incrementally from only that face's temporal-star-after. -/
def FaceState.removeBeforeFace (st : FaceState) (id : Nat) : FaceState :=
  ⟨{ st.face with beforeFaces_ := st.face.beforeFaces_.erase id },
   { st.star with tAfterStar := st.star.tAfterStar.erase (CellId.face id) },
   st.geomChanged⟩

/-- `InbetweenFace::removeAfterFace(afterFace)`. -/
def FaceState.removeAfterFace (st : FaceState) (id : Nat) : FaceState :=
  ⟨{ st.face with afterFaces_ := st.face.afterFaces_.erase id },
   { st.star with tBeforeStar := st.star.tBeforeStar.erase (CellId.face id) },
   st.geomChanged⟩

/-- The explicit `InbetweenFace(vac, cycles, beforeFaces, afterFaces)`
constructor: a freshly created cell is in no star, and the constructor
immediately calls `addMeToStarOfBoundary_()`. -/
def mkInbetweenFace (cycles : List AnimatedCycle) (bf af : Finset Nat)
    (t0 t1 : ℚ) : FaceState :=
  let f : InbetweenFace := ⟨cycles, bf, af, t0, t1⟩
  ⟨f, addMeToStarOfBoundary_ f ⟨∅, ∅, ∅⟩, 0⟩

/-- One boundary mutation of an `InbetweenFace`. -/
inductive Op where
  | setCycle (i : Nat) (c : AnimatedCycle) : Op
  | removeCycle (i : Nat) : Op
  | setBeforeFaces (bf : Finset Nat) : Op
  | setAfterFaces (af : Finset Nat) : Op
  | addBeforeFace (id : Nat) : Op
  | addAfterFace (id : Nat) : Op
  | removeBeforeFace (id : Nat) : Op
  | removeAfterFace (id : Nat) : Op
  | addAnimatedCycleEmpty : Op
  | addAnimatedCycle (c : AnimatedCycle) : Op

/-- Interpret one mutation. -/
def applyOp (st : FaceState) : Op → FaceState
  | .setCycle i c => st.setCycle i c
  | .removeCycle i => st.removeCycle i
  | .setBeforeFaces bf => st.setBeforeFaces bf
  | .setAfterFaces af => st.setAfterFaces af
  | .addBeforeFace id => st.addBeforeFace id
  | .addAfterFace id => st.addAfterFace id
  | .removeBeforeFace id => st.removeBeforeFace id
  | .removeAfterFace id => st.removeAfterFace id
  | .addAnimatedCycleEmpty => st.addAnimatedCycleEmpty
  | .addAnimatedCycle c => st.addAnimatedCycle c

/-- Interpret a sequence of mutations, first to last. -/
def applyOps (st : FaceState) (ops : List Op) : FaceState :=
  ops.foldl applyOp st

/-- A cell has the face in (some component of) its star. -/
def inStarOf (st : FaceState) (x : CellId) : Prop :=
  x ∈ st.star.spatial ∨ x ∈ st.star.tAfterStar ∨ x ∈ st.star.tBeforeStar

/-- A cell is referenced by the face's current cycles or before/after sets. -/
def referencedBy (f : InbetweenFace) (x : CellId) : Prop :=
  x ∈ f.spatialBoundary ∨ x ∈ f.beforeCells ∨ x ∈ f.afterCells

/-- Star consistency: each star component holds exactly the face's current
references of the corresponding kind. -/
def starConsistent (st : FaceState) : Prop :=
  st.star.spatial = st.face.spatialBoundary ∧
  st.star.tAfterStar = st.face.beforeCells ∧
  st.star.tBeforeStar = st.face.afterCells

/-- Whitespace as `QTextStream` treats it when splitting tokens. -/
def isWS (c : Char) : Bool :=
  c = ' ' || c = '\n' || c = '\t' || c = '\r'

/-- Skip leading whitespace of the stream. -/
def skipWS : List Char → List Char
  | [] => []
  | c :: rest => if isWS c then skipWS rest else c :: rest

/-- Take the maximal run of non-whitespace characters. -/
def takeTok : List Char → List Char × List Char
  | [] => ([], [])
  | c :: rest =>
    if isWS c then ([], c :: rest)
    else
      let p := takeTok rest
      (c :: p.1, p.2)

/-- `QTextStream >> QString`: skip whitespace, then read one
whitespace-delimited word. -/
def readToken (s : List Char) : List Char × List Char :=
  takeTok (skipWS s)

/-- Decimal digit test of the character-level int parser. -/
def isDigit (c : Char) : Bool :=
  48 ≤ c.toNat && c.toNat ≤ 57

/-- Value of a decimal digit character. -/
def digitVal (c : Char) : Nat :=
  c.toNat - 48

/-- Accumulate the leading run of decimal digits. -/
def readDigits : List Char → Nat → Nat × List Char
  | [], acc => (acc, [])
  | c :: rest, acc =>
    if isDigit c then readDigits rest (acc * 10 + digitVal c) else (acc, c :: rest)

/-- `QTextStream >> int` for the nonnegative identities written by `save_`:
skip whitespace then read digits; a failed read yields 0 and consumes
nothing further. -/
def readNat (s : List Char) : Nat × List Char :=
  readDigits (skipWS s) 0

/-- Decimal digit character for a value below 10 (clamped at `'9'`). -/
def digitChar : Nat → Char
  | 0 => '0'
  | 1 => '1'
  | 2 => '2'
  | 3 => '3'
  | 4 => '4'
  | 5 => '5'
  | 6 => '6'
  | 7 => '7'
  | 8 => '8'
  | _ => '9'

/-- Decimal digits of `n`, most significant first (fuelled so that it
reduces definitionally; `n < fuel` makes the fuel sufficient). -/
def natDigitsAux : Nat → Nat → List Char
  | 0, _ => []
  | fuel + 1, n =>
    if n < 10 then [digitChar n]
    else natDigitsAux fuel (n / 10) ++ [digitChar (n % 10)]

/-- Decimal representation of `n`, as `QTextStream << int` writes it. -/
def natDigits (n : Nat) : List Char :=
  natDigitsAux (n + 1) n

/-- Tail of the bracketed list written by `save_` after the first element:
each further identity is written as `" ,"` then `" " << id`, and the list
closes with `" ]"`. -/
def saveIdsRest : List Nat → List Char
  | [] => [' ', ']']
  | i :: rest => ' ' :: ',' :: ' ' :: (natDigits i ++ saveIdsRest rest)

/-- The bracketed, comma-separated identity list of `save_`: `"["`, a first
element written as `" " << id`, the `saveIdsRest` tail; the empty list is
written `"[ ]"`. -/
def saveBracketList : List Nat → List Char
  | [] => '[' :: [' ', ']']
  | i :: rest => '[' :: ' ' :: (natDigits i ++ saveIdsRest rest)

/-- The bracket-counting character loop of the stream constructor: read
characters one by one (no whitespace skipping, as `QTextStream >> char`),
appending them to the accumulated string until the brackets balance.  At end
of stream the C++ loop would spin forever; well-formed saved files always
close their brackets, and the model simply stops there. -/
def bracketLoop : List Char → Nat → List Char → List Char × List Char
  | s, 0, acc => (acc, s)
  | [], _ + 1, acc => (acc, [])
  | c :: rest, k + 1, acc =>
    bracketLoop rest (if c = '[' then k + 2 else if c = ']' then k else k + 1)
      (acc ++ [c])

/-- The do-while id/delimiter loop of the stream constructor: read an int and
a delimiter token, repeating while the delimiter is `","`.  The fuel bounds
the number of iterations (the C++ loop is bounded by the stream length). -/
def parseIdsLoop : Nat → List Char → List Nat → List Nat × List Char
  | 0, s, acc => (acc, s)
  | fuel + 1, s, acc =>
    let p1 := readNat s
    let p2 := readToken p1.2
    if p2.1 = [','] then parseIdsLoop fuel p2.2 (acc ++ [p1.1])
    else (acc ++ [p1.1], p2.2)

/-- One bracketed identity list as the stream constructor reads it: the
opening token, the bracket-counting loop, the two-token void test
(`b2 = "]"` means the list is empty), then the id/delimiter loop on the
accumulated string. -/
def readBracketList (s : List Char) : List Nat × List Char :=
  let p0 := readToken s
  let pb := bracketLoop p0.2 1 p0.1
  let body := pb.1
  let q1 := readToken body
  let q2 := readToken q1.2
  if q2.1 = [']'] then ([], pb.2)
  else
    let t1 := readToken body
    let pids := parseIdsLoop (body.length + 1) t1.2 []
    (pids.1, pb.2)

/-- Modelled from the spec: `Save::newField(name)` (SaveAndLoad.h is not in
the visible slice) — a field header on its own line. -/
def newField (name : List Char) : List Char :=
  '\n' :: (name ++ [' ', ':', ' '])

/-- Modelled from the spec: reading a `Field` consumes the field name and the
`":"` separator. -/
def readField (s : List Char) : List Char :=
  (readToken (readToken s).2).2

/-- Modelled from the spec: one half-edge reference of a cycle is serialized
as its cell identity and its direction bit. -/
def saveHalfedge (h : Nat × Bool) : List Char :=
  ' ' :: (natDigits h.1 ++ (' ' :: natDigits (if h.2 then 1 else 0)))

/-- Serialized halfedge list of one cycle. -/
def saveHalfedges : List (Nat × Bool) → List Char
  | [] => []
  | h :: rest => saveHalfedge h ++ saveHalfedges rest

/-- Modelled from the spec: the round-trippable text encoding of one
`AnimatedCycle` — the length of its ordered reference list followed by each
identity and direction bit. -/
def saveCycle (c : AnimatedCycle) : List Char :=
  natDigits c.halfedges.length ++ saveHalfedges c.halfedges

/-- Serialized cycle list, each cycle preceded by a separator. -/
def saveCyclesRest : List AnimatedCycle → List Char
  | [] => []
  | c :: rest => ' ' :: (saveCycle c ++ saveCyclesRest rest)

/-- Modelled from the spec: `QTextStream << cycles_` — the cycle count
followed by each cycle's encoding. -/
def saveCycles (cs : List AnimatedCycle) : List Char :=
  natDigits cs.length ++ saveCyclesRest cs

/-- A phase-1-loaded cycle: its parsed identity+direction list; geometry and
cross-references are only resolved by the second pass. -/
def loadedCycle (hs : List (Nat × Bool)) : AnimatedCycle :=
  ⟨hs, [], ∅, ∅, fun _ => []⟩

/-- Read `k` halfedge references. -/
def readHalfedges : Nat → List Char → List (Nat × Bool) × List Char
  | 0, s => ([], s)
  | k + 1, s =>
    let p1 := readNat s
    let p2 := readNat p1.2
    let p3 := readHalfedges k p2.2
    ((p1.1, p2.1 ≠ 0) :: p3.1, p3.2)

instance instDecHalfedgeDir (n : Nat) : Decidable (n ≠ 0) :=
  inferInstanceAs (Decidable (Not _))

/-- Read `k` cycles. -/
def readCyclesLoop : Nat → List Char → List AnimatedCycle × List Char
  | 0, s => ([], s)
  | k + 1, s =>
    let p1 := readNat s
    let p2 := readHalfedges p1.1 p1.2
    let p3 := readCyclesLoop k p2.2
    (loadedCycle p2.1 :: p3.1, p3.2)

/-- Modelled from the spec: `QTextStream >> cycles_` — read the cycle count,
then each cycle. -/
def readCycles (s : List Char) : List AnimatedCycle × List Char :=
  let p := readNat s
  readCyclesLoop p.1 p.2

/-- `InbetweenFace::save_(out)`: the `Cycles` field, then the before-face and
after-face identity sets as bracketed lists.  `blist` and `alist` are the
iteration orders of the two `QSet`s; base-class fields are outside the
visible slice and are not modelled. -/
def InbetweenFace.save_ (f : InbetweenFace) (blist alist : List Nat) : List Char :=
  newField "Cycles".toList ++ saveCycles f.cycles_ ++
  newField "BeforeFaces".toList ++ saveBracketList blist ++
  newField "AfterFaces".toList ++ saveBracketList alist

/-- Phase 1 of loading, the `InbetweenFace(VAC*, QTextStream&)` constructor:
parse the cycles, then the two bracketed identity lists into the temporary
id lists. -/
def loadPhase1 (s : List Char) : List AnimatedCycle × List Nat × List Nat :=
  let s1 := readField s
  let pc := readCycles s1
  let s3 := readField pc.2
  let pb := readBracketList s3
  let s5 := readField pb.2
  let pa := readBracketList s5
  (pc.1, pb.1, pa.1)

/-- `InbetweenFace::read2ndPass()` on one temporary identity list: each id is
resolved through `vac()->getCell(id)->toKeyFace()` with no null check
(`getCell` is modelled from the spec as a registry lookup); an id with no
live cell makes the C++ dereference a null pointer, modelled as `none`. -/
def read2ndPassFaces (live : Finset Nat) : List Nat → Option (Finset Nat)
  | [] => some ∅
  | id :: rest =>
    if id ∈ live then (read2ndPassFaces live rest).map (insert id) else none

/-- Load errors of the spec's error taxonomy. -/
inductive LoadError where
  | unresolvedIdentity : LoadError
deriving DecidableEq

/-- Modelled from the spec: `resolve(identity)` fails with
`UnresolvedIdentityError` if the identity does not resolve to a live cell at
second-pass load time, aborting the load and reporting to the caller. -/
def resolveFacesSpec (live : Finset Nat) : List Nat → Except LoadError (Finset Nat)
  | [] => .ok ∅
  | id :: rest =>
    if id ∈ live then (resolveFacesSpec live rest).map (insert id)
    else .error .unresolvedIdentity

/-- Union of the `cells()` of a cycle list (the loop of `spatialBoundary`). -/
def cycCellsU (l : List AnimatedCycle) : Finset CellId :=
  l.foldl (fun r c => r ∪ c.cells) ∅

/-- Union of the `beforeCells()` of a cycle list. -/
def cycBeforeU (l : List AnimatedCycle) : Finset CellId :=
  l.foldl (fun r c => r ∪ c.beforeCells) ∅

/-- Union of the `afterCells()` of a cycle list. -/
def cycAfterU (l : List AnimatedCycle) : Finset CellId :=
  l.foldl (fun r c => r ∪ c.afterCells) ∅

/-- A sampling producing the unit square at every instant. -/
def sqSampling : ℚ → List (ℚ × ℚ) :=
  fun _ => [(0, 0), (1, 0), (1, 1), (0, 1)]

/-- A cycle whose sampled polyline is the unit square. -/
def sqCycle : AnimatedCycle :=
  ⟨[(6, true)], [5], ∅, ∅, sqSampling⟩

/-- A face bounded by the square cycle, valid on `(0, 1)`. -/
def faceSquare01 : InbetweenFace :=
  ⟨[sqCycle], ∅, ∅, 0, 1⟩

/-- The same cycle, but valid on `(2, 3)`. -/
def faceSquare23 : InbetweenFace :=
  ⟨[sqCycle], ∅, ∅, 2, 3⟩

/-- The same cycle and interval as `faceSquare01`, with a before face. -/
def faceSquareBf : InbetweenFace :=
  ⟨[sqCycle], {9}, ∅, 0, 1⟩

/-- A face with no cycles, valid on `(0, 1)`. -/
def faceNoCycles : InbetweenFace :=
  ⟨[], ∅, ∅, 0, 1⟩

/-- A face with one two-halfedge cycle, valid on `(0, 1)`. -/
def faceC4 : InbetweenFace :=
  ⟨[⟨[(7, true), (8, false)], [5], ∅, ∅, fun _ => []⟩], ∅, ∅, 0, 1⟩

/-- A key edge living at time 5, outside the interval of `faceC4`. -/
def edgeOutside : KeyEdge :=
  ⟨7, 5⟩

/-- A face with one cycle and two before faces, for the round-trip. -/
def faceC3 : InbetweenFace :=
  ⟨[⟨[(3, true), (4, false)], [], ∅, ∅, fun _ => []⟩], {1, 2}, ∅, 0, 1⟩

/-- A freshly constructed face with no cycles. -/
def stNoCycles : FaceState :=
  mkInbetweenFace [] ∅ ∅ 0 1

/-- The stream is exhausted or its next character is not a decimal digit (so
an int extraction stops in front of it). -/
def headNotDigit : List Char → Prop
  | [] => True
  | c :: _ => isDigit c = false

/-- The stream is exhausted or its next character is whitespace (so a token
extraction stops in front of it). -/
def headWS : List Char → Prop
  | [] => True
  | c :: _ => isWS c = true

lemma mem_foldl_union (g : AnimatedCycle → Finset CellId) (l : List AnimatedCycle)
    (init : Finset CellId) (x : CellId) :
    x ∈ l.foldl (fun r c => r ∪ g c) init ↔ x ∈ init ∨ ∃ c ∈ l, x ∈ g c := by
  induction l generalizing init with
  | nil => simp
  | cons c t ih =>
    simp only [List.foldl_cons, ih, Finset.mem_union, List.mem_cons]
    constructor
    · rintro ((h | h) | ⟨d, hd, hx⟩)
      · exact Or.inl h
      · exact Or.inr ⟨c, Or.inl rfl, h⟩
      · exact Or.inr ⟨d, Or.inr hd, hx⟩
    · rintro (h | ⟨d, rfl | hd, hx⟩)
      · exact Or.inl (Or.inl h)
      · exact Or.inl (Or.inr hx)
      · exact Or.inr ⟨d, hd, hx⟩

lemma spatialBoundary_eq (f : InbetweenFace) :
    f.spatialBoundary = cycCellsU f.cycles_ := rfl

lemma beforeCells_eq (f : InbetweenFace) :
    f.beforeCells = f.beforeFaces_.image CellId.face ∪ cycBeforeU f.cycles_ := by
  ext x
  simp only [InbetweenFace.beforeCells, cycBeforeU, mem_foldl_union, Finset.mem_union,
    Finset.not_mem_empty, false_or]

lemma afterCells_eq (f : InbetweenFace) :
    f.afterCells = f.afterFaces_.image CellId.face ∪ cycAfterU f.cycles_ := by
  ext x
  simp only [InbetweenFace.afterCells, cycAfterU, mem_foldl_union, Finset.mem_union,
    Finset.not_mem_empty, false_or]

lemma mem_cycCellsU (l : List AnimatedCycle) (x : CellId) :
    x ∈ cycCellsU l ↔ ∃ c ∈ l, x ∈ c.cells := by
  simp [cycCellsU, mem_foldl_union]

lemma mem_cycBeforeU (l : List AnimatedCycle) (x : CellId) :
    x ∈ cycBeforeU l ↔ ∃ c ∈ l, x ∈ c.beforeCells := by
  simp [cycBeforeU, mem_foldl_union]

lemma mem_cycAfterU (l : List AnimatedCycle) (x : CellId) :
    x ∈ cycAfterU l ↔ ∃ c ∈ l, x ∈ c.afterCells := by
  simp [cycAfterU, mem_foldl_union]

lemma cycBeforeU_nonface (l : List AnimatedCycle) (x : CellId)
    (h : x ∈ cycBeforeU l) : ∃ m, x = CellId.nonface m := by
  rw [mem_cycBeforeU] at h
  obtain ⟨c, _, hx⟩ := h
  rw [AnimatedCycle.beforeCells, Finset.mem_image] at hx
  obtain ⟨m, _, hm⟩ := hx
  exact ⟨m, hm.symm⟩

lemma cycAfterU_nonface (l : List AnimatedCycle) (x : CellId)
    (h : x ∈ cycAfterU l) : ∃ m, x = CellId.nonface m := by
  rw [mem_cycAfterU] at h
  obtain ⟨c, _, hx⟩ := h
  rw [AnimatedCycle.afterCells, Finset.mem_image] at hx
  obtain ⟨m, _, hm⟩ := hx
  exact ⟨m, hm.symm⟩

lemma face_inj : Function.Injective CellId.face := by
  intro a b h
  injection h

lemma emptyCycle_cells : emptyAnimatedCycle.cells = ∅ := by
  simp [emptyAnimatedCycle, AnimatedCycle.cells]

lemma emptyCycle_beforeCells : emptyAnimatedCycle.beforeCells = ∅ := by
  simp [emptyAnimatedCycle, AnimatedCycle.beforeCells]

lemma emptyCycle_afterCells : emptyAnimatedCycle.afterCells = ∅ := by
  simp [emptyAnimatedCycle, AnimatedCycle.afterCells]

lemma cycCellsU_append_empty (l : List AnimatedCycle) :
    cycCellsU (l ++ [emptyAnimatedCycle]) = cycCellsU l := by
  ext x
  simp only [mem_cycCellsU, List.mem_append, List.mem_singleton]
  constructor
  · rintro ⟨c, hc | rfl, hx⟩
    · exact ⟨c, hc, hx⟩
    · rw [emptyCycle_cells] at hx
      exact absurd hx (Finset.not_mem_empty x)
  · rintro ⟨c, hc, hx⟩
    exact ⟨c, Or.inl hc, hx⟩

lemma cycBeforeU_append_empty (l : List AnimatedCycle) :
    cycBeforeU (l ++ [emptyAnimatedCycle]) = cycBeforeU l := by
  ext x
  simp only [mem_cycBeforeU, List.mem_append, List.mem_singleton]
  constructor
  · rintro ⟨c, hc | rfl, hx⟩
    · exact ⟨c, hc, hx⟩
    · rw [emptyCycle_beforeCells] at hx
      exact absurd hx (Finset.not_mem_empty x)
  · rintro ⟨c, hc, hx⟩
    exact ⟨c, Or.inl hc, hx⟩

lemma cycAfterU_append_empty (l : List AnimatedCycle) :
    cycAfterU (l ++ [emptyAnimatedCycle]) = cycAfterU l := by
  ext x
  simp only [mem_cycAfterU, List.mem_append, List.mem_singleton]
  constructor
  · rintro ⟨c, hc | rfl, hx⟩
    · exact ⟨c, hc, hx⟩
    · rw [emptyCycle_afterCells] at hx
      exact absurd hx (Finset.not_mem_empty x)
  · rintro ⟨c, hc, hx⟩
    exact ⟨c, Or.inl hc, hx⟩

lemma starConsistent_reregister (st : FaceState) (f2 : InbetweenFace) (n : Nat)
    (h : starConsistent st) :
    starConsistent ⟨f2, addMeToStarOfBoundary_ f2 (removeMeFromStarOfBoundary_ st.face st.star), n⟩ := by
  obtain ⟨h1, h2, h3⟩ := h
  refine ⟨?_, ?_, ?_⟩ <;>
    simp [addMeToStarOfBoundary_, removeMeFromStarOfBoundary_, h1, h2, h3]

lemma starConsistent_setCycle (st : FaceState) (i : Nat) (c : AnimatedCycle)
    (h : starConsistent st) : starConsistent (st.setCycle i c) :=
  starConsistent_reregister st _ _ h

lemma starConsistent_removeCycle (st : FaceState) (i : Nat)
    (h : starConsistent st) : starConsistent (st.removeCycle i) :=
  starConsistent_reregister st _ _ h

lemma starConsistent_setBeforeFaces (st : FaceState) (bf : Finset Nat)
    (h : starConsistent st) : starConsistent (st.setBeforeFaces bf) :=
  starConsistent_reregister st _ _ h

lemma starConsistent_setAfterFaces (st : FaceState) (af : Finset Nat)
    (h : starConsistent st) : starConsistent (st.setAfterFaces af) :=
  starConsistent_reregister st _ _ h

lemma starConsistent_addAnimatedCycleEmpty (st : FaceState)
    (h : starConsistent st) : starConsistent st.addAnimatedCycleEmpty := by
  obtain ⟨h1, h2, h3⟩ := h
  refine ⟨?_, ?_, ?_⟩
  · show st.star.spatial = InbetweenFace.spatialBoundary _
    rw [h1, spatialBoundary_eq, spatialBoundary_eq]
    show cycCellsU st.face.cycles_ = cycCellsU (st.face.cycles_ ++ [emptyAnimatedCycle])
    rw [cycCellsU_append_empty]
  · show st.star.tAfterStar = InbetweenFace.beforeCells _
    rw [h2, beforeCells_eq, beforeCells_eq]
    show st.face.beforeFaces_.image CellId.face ∪ cycBeforeU st.face.cycles_ =
      st.face.beforeFaces_.image CellId.face ∪ cycBeforeU (st.face.cycles_ ++ [emptyAnimatedCycle])
    rw [cycBeforeU_append_empty]
  · show st.star.tBeforeStar = InbetweenFace.afterCells _
    rw [h3, afterCells_eq, afterCells_eq]
    show st.face.afterFaces_.image CellId.face ∪ cycAfterU st.face.cycles_ =
      st.face.afterFaces_.image CellId.face ∪ cycAfterU (st.face.cycles_ ++ [emptyAnimatedCycle])
    rw [cycAfterU_append_empty]

lemma starConsistent_addBeforeFace (st : FaceState) (id : Nat)
    (h : starConsistent st) : starConsistent (st.addBeforeFace id) := by
  obtain ⟨h1, h2, h3⟩ := h
  refine ⟨?_, ?_, ?_⟩
  · exact h1
  · show insert (CellId.face id) st.star.tAfterStar = InbetweenFace.beforeCells _
    rw [h2, beforeCells_eq, beforeCells_eq]
    show insert (CellId.face id) (st.face.beforeFaces_.image CellId.face ∪ cycBeforeU st.face.cycles_) =
      (insert id st.face.beforeFaces_).image CellId.face ∪ cycBeforeU st.face.cycles_
    rw [Finset.image_insert, Finset.insert_union]
  · exact h3

lemma starConsistent_addAfterFace (st : FaceState) (id : Nat)
    (h : starConsistent st) : starConsistent (st.addAfterFace id) := by
  obtain ⟨h1, h2, h3⟩ := h
  refine ⟨h1, h2, ?_⟩
  show insert (CellId.face id) st.star.tBeforeStar = InbetweenFace.afterCells _
  rw [h3, afterCells_eq, afterCells_eq]
  show insert (CellId.face id) (st.face.afterFaces_.image CellId.face ∪ cycAfterU st.face.cycles_) =
    (insert id st.face.afterFaces_).image CellId.face ∪ cycAfterU st.face.cycles_
  rw [Finset.image_insert, Finset.insert_union]

lemma starConsistent_removeBeforeFace (st : FaceState) (id : Nat)
    (h : starConsistent st) : starConsistent (st.removeBeforeFace id) := by
  obtain ⟨h1, h2, h3⟩ := h
  refine ⟨h1, ?_, h3⟩
  show (st.star.tAfterStar).erase (CellId.face id) = InbetweenFace.beforeCells _
  rw [h2, beforeCells_eq, beforeCells_eq]
  show (st.face.beforeFaces_.image CellId.face ∪ cycBeforeU st.face.cycles_).erase (CellId.face id) =
    (st.face.beforeFaces_.erase id).image CellId.face ∪ cycBeforeU st.face.cycles_
  rw [Finset.erase_union_distrib, Finset.image_erase face_inj]
  congr 1
  apply Finset.erase_eq_of_not_mem
  intro hmem
  obtain ⟨m, hm⟩ := cycBeforeU_nonface _ _ hmem
  exact CellId.noConfusion hm

lemma starConsistent_removeAfterFace (st : FaceState) (id : Nat)
    (h : starConsistent st) : starConsistent (st.removeAfterFace id) := by
  obtain ⟨h1, h2, h3⟩ := h
  refine ⟨h1, h2, ?_⟩
  show (st.star.tBeforeStar).erase (CellId.face id) = InbetweenFace.afterCells _
  rw [h3, afterCells_eq, afterCells_eq]
  show (st.face.afterFaces_.image CellId.face ∪ cycAfterU st.face.cycles_).erase (CellId.face id) =
    (st.face.afterFaces_.erase id).image CellId.face ∪ cycAfterU st.face.cycles_
  rw [Finset.erase_union_distrib, Finset.image_erase face_inj]
  congr 1
  apply Finset.erase_eq_of_not_mem
  intro hmem
  obtain ⟨m, hm⟩ := cycAfterU_nonface _ _ hmem
  exact CellId.noConfusion hm

lemma starConsistent_applyOp (st : FaceState) (op : Op)
    (h : starConsistent st) : starConsistent (applyOp st op) := by
  cases op with
  | setCycle i c => exact starConsistent_setCycle st i c h
  | removeCycle i => exact starConsistent_removeCycle st i h
  | setBeforeFaces bf => exact starConsistent_setBeforeFaces st bf h
  | setAfterFaces af => exact starConsistent_setAfterFaces st af h
  | addBeforeFace id => exact starConsistent_addBeforeFace st id h
  | addAfterFace id => exact starConsistent_addAfterFace st id h
  | removeBeforeFace id => exact starConsistent_removeBeforeFace st id h
  | removeAfterFace id => exact starConsistent_removeAfterFace st id h
  | addAnimatedCycleEmpty => exact starConsistent_addAnimatedCycleEmpty st h
  | addAnimatedCycle c =>
    exact starConsistent_setCycle _ _ c (starConsistent_addAnimatedCycleEmpty st h)

lemma starConsistent_applyOps (st : FaceState) (ops : List Op)
    (h : starConsistent st) : starConsistent (applyOps st ops) := by
  induction ops generalizing st with
  | nil => exact h
  | cons op t ih => exact ih (applyOp st op) (starConsistent_applyOp st op h)

lemma starConsistent_mk (cycles : List AnimatedCycle) (bf af : Finset Nat)
    (t0 t1 : ℚ) : starConsistent (mkInbetweenFace cycles bf af t0 t1) := by
  refine ⟨?_, ?_, ?_⟩ <;> simp [mkInbetweenFace, addMeToStarOfBoundary_]

/-- C1 — Star consistency: starting from a constructed `InbetweenFace`, after
any sequence of boundary mutations (set/remove cycle, set before/after
faces, add/remove single before/after faces, the two `addAnimatedCycle`
overloads), each star component holds exactly the face's current references
of the corresponding kind; hence a cell has the face in its star exactly
when the face's current cycles or before/after sets reference it.  The
full-set operations achieve this by deregister → mutate → re-register, the
single-element ones by incremental registration, with the same resulting
star state. -/
theorem star_consistency (cycles : List AnimatedCycle) (bf af : Finset Nat)
    (t0 t1 : ℚ) (ops : List Op) :
    starConsistent (applyOps (mkInbetweenFace cycles bf af t0 t1) ops) ∧
    ∀ x : CellId,
      inStarOf (applyOps (mkInbetweenFace cycles bf af t0 t1) ops) x ↔
        referencedBy (applyOps (mkInbetweenFace cycles bf af t0 t1) ops).face x := by
  have h := starConsistent_applyOps (mkInbetweenFace cycles bf af t0 t1) ops
    (starConsistent_mk cycles bf af t0 t1)
  refine ⟨h, ?_⟩
  obtain ⟨h1, h2, h3⟩ := h
  intro x
  simp only [inStarOf, referencedBy, h1, h2, h3]

/-- C6 — Temporal boundary queries: `beforeCells()` is the union of the
explicit before-face set with the `beforeCells()` of each cycle, and
`afterCells()` the union of the explicit after-face set with the
`afterCells()` of each cycle. -/
theorem beforeCells_afterCells_union (f : InbetweenFace) (x : CellId) :
    (x ∈ f.beforeCells ↔
      x ∈ f.beforeFaces_.image CellId.face ∨ ∃ c ∈ f.cycles_, x ∈ c.beforeCells) ∧
    (x ∈ f.afterCells ↔
      x ∈ f.afterFaces_.image CellId.face ∨ ∃ c ∈ f.cycles_, x ∈ c.afterCells) := by
  constructor
  · rw [beforeCells_eq]
    simp [mem_cycBeforeU]
  · rw [afterCells_eq]
    simp [mem_cycAfterU]

/-- C9 — `getSampling(t)` performs no existence check: for every time `t`,
also outside the validity interval, it returns exactly one contour per
animated cycle, in cycle order, each being that cycle's sampled polyline at
`t`. -/
theorem getSampling_no_existence_check (f : InbetweenFace) (t : ℚ) :
    f.getSampling t = f.cycles_.map (fun c => c.sample t) ∧
    (f.getSampling t).length = f.numAnimatedCycles := by
  have h : f.getSampling t = f.cycles_.map (fun c => c.sample t) := by
    have hfun : ∀ l : List (ℚ × ℚ),
        (l.map (fun p => (p.1, p.2, (0 : ℚ)))).map (fun a => (a.1, a.2.1)) = l := by
      intro l
      induction l with
      | nil => rfl
      | cons p tl ih => simp [ih]
    simp only [InbetweenFace.getSampling, createPolygonData, List.map_map]
    refine List.map_congr_left ?_
    intro a _
    exact hfun (a.sample t)
  refine ⟨h, ?_⟩
  rw [h, List.length_map]
  rfl

/-- C10 — The no-argument `addAnimatedCycle()` appends one empty (invalid)
cycle, increasing `numAnimatedCycles` by exactly 1 and keeping the previous
cycles as a prefix; before/after face sets, star registrations and the
geometry-changed count are unchanged. -/
theorem addAnimatedCycle_empty_frame (st : FaceState) :
    st.addAnimatedCycleEmpty.face.cycles_ = st.face.cycles_ ++ [emptyAnimatedCycle] ∧
    st.addAnimatedCycleEmpty.face.numAnimatedCycles = st.face.numAnimatedCycles + 1 ∧
    st.addAnimatedCycleEmpty.face.cycles_.take st.face.numAnimatedCycles = st.face.cycles_ ∧
    st.addAnimatedCycleEmpty.face.beforeFaces_ = st.face.beforeFaces_ ∧
    st.addAnimatedCycleEmpty.face.afterFaces_ = st.face.afterFaces_ ∧
    st.addAnimatedCycleEmpty.star = st.star ∧
    st.addAnimatedCycleEmpty.geomChanged = st.geomChanged := by
  refine ⟨rfl, ?_, ?_, rfl, rfl, rfl, rfl⟩
  · simp [FaceState.addAnimatedCycleEmpty, InbetweenFace.numAnimatedCycles]
  · exact List.take_left ..

/-- C5 (amended) — A geometry-changed notification is emitted after
`setCycle`, `removeCycle` and the cycle-argument `addAnimatedCycle`
overload; the no-argument `addAnimatedCycle()` overload mutates the cycle
collection without emitting one. -/
theorem geometry_changed_notifications (st : FaceState) (i : Nat) (c : AnimatedCycle) :
    (st.setCycle i c).geomChanged = st.geomChanged + 1 ∧
    (st.removeCycle i).geomChanged = st.geomChanged + 1 ∧
    (st.addAnimatedCycle c).geomChanged = st.geomChanged + 1 ∧
    st.addAnimatedCycleEmpty.geomChanged = st.geomChanged :=
  ⟨rfl, rfl, rfl, rfl⟩

/-- C5 (counterexample) — The no-argument `addAnimatedCycle()` mutates the
face's cycle collection yet emits no geometry-changed notification, so not
every cycle mutation notifies. -/
theorem addAnimatedCycle_no_notification_cex :
    stNoCycles.addAnimatedCycleEmpty.face.cycles_.length ≠ stNoCycles.face.cycles_.length ∧
    stNoCycles.addAnimatedCycleEmpty.geomChanged = stNoCycles.geomChanged := by
  exact ⟨by decide, rfl⟩

/-- C4 — Boundary-update forwarding: the vertex and half-edge variants of
`updateBoundary_impl` forward the rewrite to every cycle (elementwise
`replaceVertex` / `replaceHalfedge`), and the edge-list variant is a no-op
when the replaced edge's time is outside the face's validity interval,
otherwise forwards `replaceEdges` to every cycle. -/
theorem updateBoundary_forwarding (f : InbetweenFace) (ov nv : Nat) (oh nh : Nat × Bool)
    (e : KeyEdge) (news : List Nat) (i : Nat) :
    (f.updateBoundary_vertex ov nv).cycles_[i]? =
      (f.cycles_[i]?).map (fun c => c.replaceVertex ov nv) ∧
    (f.updateBoundary_halfedge oh nh).cycles_[i]? =
      (f.cycles_[i]?).map (fun c => c.replaceHalfedge oh nh) ∧
    (¬ f.existsAt e.time → f.updateBoundary_edges e news = f) ∧
    (f.existsAt e.time →
      (f.updateBoundary_edges e news).cycles_[i]? =
        (f.cycles_[i]?).map (fun c => c.replaceEdges e.id news)) := by
  refine ⟨?_, ?_, ?_, ?_⟩
  · simp [InbetweenFace.updateBoundary_vertex, List.getElem?_map]
  · simp [InbetweenFace.updateBoundary_halfedge, List.getElem?_map]
  · intro h
    simp [InbetweenFace.updateBoundary_edges, h]
  · intro h
    simp [InbetweenFace.updateBoundary_edges, h, List.getElem?_map]

/-- C4 (witness) — concrete instance: the vertex rewrite reaches cycle 0, and
replacing edge 7 (alive at time 5, outside the interval `(0, 1)`) leaves the
face untouched. -/
theorem updateBoundary_forwarding_witness :
    (faceC4.updateBoundary_vertex 5 9).cycles_[0]? =
      (faceC4.cycles_[0]?).map (fun c => c.replaceVertex 5 9) ∧
    faceC4.updateBoundary_edges edgeOutside [8, 9] = faceC4 :=
  ⟨(updateBoundary_forwarding faceC4 5 9 (7, true) (8, true) edgeOutside [8, 9] 0).1,
   (updateBoundary_forwarding faceC4 5 9 (7, true) (8, true) edgeOutside [8, 9] 0).2.2.1
     (by norm_num [InbetweenFace.existsAt, faceC4, edgeOutside])⟩

lemma fanContour_length (l : List (ℚ × ℚ × ℚ)) :
    (fanContour l).length = l.length - 2 := by
  cases l with
  | nil => rfl
  | cons p0 rest =>
    simp only [fanContour, List.length_map, List.length_zip, List.length_tail,
      List.length_cons]
    omega

/-- C2 (counterexample) — A face with no cycles, at a time inside its
interval: every cycle (vacuously) samples to at least 3 points, yet
`triangulate_` returns zero triangles, so the claim's inside-interval bound
fails as stated. -/
theorem triangulate_nonempty_fails_without_cycles :
    faceNoCycles.existsAt (1 / 2) ∧
    (∀ c ∈ faceNoCycles.cycles_, 3 ≤ (c.sample (1 / 2)).length) ∧
    faceNoCycles.triangulate_ (1 / 2) = [] := by
  have hex : faceNoCycles.existsAt (1 / 2) := by
    norm_num [InbetweenFace.existsAt, faceNoCycles]
  refine ⟨hex, ?_, ?_⟩
  · intro c hc
    simp [faceNoCycles] at hc
  · simp only [InbetweenFace.triangulate_, if_pos hex]
    rfl

/-- C2 (amended) — Temporal bound of triangulation: outside the face's
existence interval `triangulate_` returns zero triangles; inside it, it
returns a non-empty triangle list whenever the face has at least one cycle
and every cycle samples to at least 3 points. -/
theorem triangulate_temporal_bound (f : InbetweenFace) (t : ℚ) :
    (¬ f.existsAt t → f.triangulate_ t = []) ∧
    (f.existsAt t → f.cycles_ ≠ [] →
      (∀ c ∈ f.cycles_, 3 ≤ (c.sample t).length) → f.triangulate_ t ≠ []) := by
  constructor
  · intro h
    simp [InbetweenFace.triangulate_, h]
  · intro hex hne h3
    rcases hl : f.cycles_ with _ | ⟨c0, rest⟩
    · exact absurd hl hne
    · have h30 : 3 ≤ (c0.sample t).length :=
        h3 c0 (by rw [hl]; exact List.mem_cons_self c0 rest)
      rw [← List.length_pos]
      simp only [InbetweenFace.triangulate_, if_pos hex, computeTrianglesFromCycles,
        createPolygonData, tesselatePolygon, hl, List.map_cons, List.flatMap_cons,
        List.length_append]
      have h1 : 0 < (fanContour ((c0.sample t).map (fun p => (p.1, p.2, 0)))).length := by
        rw [fanContour_length, List.length_map]
        omega
      omega

/-- C2 (witness) — the square-cycle face on `(0, 1)`: empty mesh at time 5,
non-empty mesh at time 1/2. -/
theorem triangulate_temporal_bound_witness :
    faceSquare01.triangulate_ 5 = [] ∧ faceSquare01.triangulate_ (1 / 2) ≠ [] :=
  ⟨(triangulate_temporal_bound faceSquare01 5).1
     (by norm_num [InbetweenFace.existsAt, faceSquare01]),
   (triangulate_temporal_bound faceSquare01 (1 / 2)).2
     (by norm_num [InbetweenFace.existsAt, faceSquare01])
     (by simp [faceSquare01])
     (by
       intro c hc
       simp only [faceSquare01, List.mem_singleton] at hc
       subst hc
       norm_num [sqCycle, AnimatedCycle.sample, sqSampling])⟩

/-- C7 (counterexample) — Triangulation is not a pure function of the cycles
and the time alone: two faces with identical cycles but different validity
intervals triangulate differently at time 1/2. -/
theorem triangulate_not_function_of_cycles_time_cex :
    faceSquare01.cycles_ = faceSquare23.cycles_ ∧
    faceSquare01.triangulate_ (1 / 2) ≠ faceSquare23.triangulate_ (1 / 2) := by
  refine ⟨rfl, ?_⟩
  have h01 : faceSquare01.existsAt (1 / 2) := by
    norm_num [InbetweenFace.existsAt, faceSquare01]
  have h23 : ¬ faceSquare23.existsAt (1 / 2) := by
    norm_num [InbetweenFace.existsAt, faceSquare23]
  simp only [InbetweenFace.triangulate_, if_pos h01, if_neg h23]
  have hlen : (computeTrianglesFromCycles faceSquare01.cycles_ (1 / 2)).length = 2 := rfl
  intro h
  rw [h] at hlen
  simp at hlen

/-- C7 (amended) — Triangulation determinism: `triangulate_` is a pure
function of the cycles, the validity interval and the time; in particular
two calls with no intervening mutation yield identical triangle lists. -/
theorem triangulate_deterministic (f g : InbetweenFace) (t : ℚ)
    (hc : f.cycles_ = g.cycles_) (hb : f.tBefore = g.tBefore)
    (ha : f.tAfter = g.tAfter) :
    f.triangulate_ t = g.triangulate_ t := by
  simp only [InbetweenFace.triangulate_, InbetweenFace.existsAt, hb, ha, hc]

/-- C7 (witness) — two faces agreeing on cycles and interval but not on
before faces triangulate identically at time 1/2. -/
theorem triangulate_deterministic_witness :
    faceSquare01.triangulate_ (1 / 2) = faceSquareBf.triangulate_ (1 / 2) :=
  triangulate_deterministic faceSquare01 faceSquareBf (1 / 2) rfl rfl rfl

lemma digitChar_spec (m : Nat) :
    isDigit (digitChar m) = true ∧ isWS (digitChar m) = false ∧
    digitChar m ≠ '[' ∧ digitChar m ≠ ']' ∧ digitChar m ≠ ',' := by
  rcases Nat.lt_or_ge m 9 with h | h
  · interval_cases m <;> decide
  · obtain ⟨k, rfl⟩ : ∃ k, m = k + 9 := ⟨m - 9, by omega⟩
    show isDigit '9' = true ∧ isWS '9' = false ∧ '9' ≠ '[' ∧ '9' ≠ ']' ∧ '9' ≠ ','
    decide

lemma digitVal_digitChar (m : Nat) (h : m < 10) : digitVal (digitChar m) = m := by
  interval_cases m <;> decide

lemma natDigitsAux_digits (fuel : Nat) :
    ∀ n, n < fuel → ∀ c ∈ natDigitsAux fuel n, isDigit c = true := by
  induction fuel with
  | zero => intro n h; omega
  | succ f ih =>
    intro n _ c hc
    by_cases h10 : n < 10
    · rw [natDigitsAux, if_pos h10] at hc
      rw [List.mem_singleton] at hc
      rw [hc]
      exact (digitChar_spec n).1
    · rw [natDigitsAux, if_neg h10] at hc
      rw [List.mem_append, List.mem_singleton] at hc
      rcases hc with hc | hc
      · have hdiv : n / 10 < f := by
          have h1 : n / 10 < n := Nat.div_lt_self (by omega) (by omega)
          omega
        exact ih (n / 10) hdiv c hc
      · rw [hc]
        exact (digitChar_spec (n % 10)).1
    -- the remaining bound is discharged per branch above

lemma natDigitsAux_ne_nil (fuel n : Nat) (h : n < fuel) :
    natDigitsAux fuel n ≠ [] := by
  cases fuel with
  | zero => omega
  | succ f =>
    by_cases h10 : n < 10
    · rw [natDigitsAux, if_pos h10]
      simp
    · rw [natDigitsAux, if_neg h10]
      simp

lemma natDigitsAux_head (fuel n : Nat) (h : n < fuel) :
    ∃ c t, natDigitsAux fuel n = c :: t ∧ isDigit c = true := by
  rcases hd : natDigitsAux fuel n with _ | ⟨c, t⟩
  · exact absurd hd (natDigitsAux_ne_nil fuel n h)
  · refine ⟨c, t, rfl, ?_⟩
    exact natDigitsAux_digits fuel n h c (by rw [hd]; exact List.mem_cons_self c t)

lemma not_ws_of_digit (c : Char) (h : isDigit c = true) : isWS c = false := by
  have h1 : 48 ≤ c.toNat ∧ c.toNat ≤ 57 := by
    simpa [isDigit] using h
  have hs : c ≠ ' ' := by rintro rfl; revert h1; decide
  have hn : c ≠ '\n' := by rintro rfl; revert h1; decide
  have ht : c ≠ '\t' := by rintro rfl; revert h1; decide
  have hr : c ≠ '\r' := by rintro rfl; revert h1; decide
  simp [isWS, hs, hn, ht, hr]

lemma digit_ne_brackets (c : Char) (h : isDigit c = true) :
    c ≠ '[' ∧ c ≠ ']' := by
  have h1 : 48 ≤ c.toNat ∧ c.toNat ≤ 57 := by
    simpa [isDigit] using h
  constructor
  · rintro rfl; revert h1; decide
  · rintro rfl; revert h1; decide

lemma skipWS_cons_of_ws (c : Char) (s : List Char) (h : isWS c = true) :
    skipWS (c :: s) = skipWS s := by
  simp [skipWS, h]

lemma skipWS_cons_of_not (c : Char) (s : List Char) (h : isWS c = false) :
    skipWS (c :: s) = c :: s := by
  simp [skipWS, h]

lemma readDigits_stop (s : List Char) (acc : Nat) (h : headNotDigit s) :
    readDigits s acc = (acc, s) := by
  cases s with
  | nil => rfl
  | cons c t =>
    rw [headNotDigit] at h
    simp [readDigits, h]

lemma readDigits_natDigitsAux (fuel : Nat) :
    ∀ n acc rest, n < fuel →
      readDigits (natDigitsAux fuel n ++ rest) acc =
        readDigits rest (acc * 10 ^ (natDigitsAux fuel n).length + n) := by
  induction fuel with
  | zero => intro n _ _ h; omega
  | succ f ih =>
    intro n acc rest _
    by_cases h10 : n < 10
    · rw [natDigitsAux, if_pos h10]
      rw [List.singleton_append, readDigits, if_pos (digitChar_spec n).1,
        digitVal_digitChar n h10]
      norm_num
    · rw [natDigitsAux, if_neg h10]
      have hdiv : n / 10 < f := by
        have h1 : n / 10 < n := Nat.div_lt_self (by omega) (by omega)
        omega
      rw [List.append_assoc, ih (n / 10) acc ([digitChar (n % 10)] ++ rest) hdiv,
        List.singleton_append, readDigits, if_pos (digitChar_spec (n % 10)).1,
        digitVal_digitChar (n % 10) (by omega)]
      congr 1
      rw [List.length_append, List.length_singleton, pow_succ]
      have hdm : 10 * (n / 10) + n % 10 = n := Nat.div_add_mod n 10
      calc (acc * 10 ^ (natDigitsAux f (n / 10)).length + n / 10) * 10 + n % 10
          = acc * (10 ^ (natDigitsAux f (n / 10)).length * 10) +
              (10 * (n / 10) + n % 10) := by ring
        _ = acc * (10 ^ (natDigitsAux f (n / 10)).length * 10) + n := by rw [hdm]

lemma readNat_cons_ws (c : Char) (s : List Char) (h : isWS c = true) :
    readNat (c :: s) = readNat s := by
  rw [readNat, readNat, skipWS_cons_of_ws c s h]

lemma readNat_print (n : Nat) (rest : List Char) (h : headNotDigit rest) :
    readNat (natDigits n ++ rest) = (n, rest) := by
  have hlt : n < n + 1 := Nat.lt_succ_self n
  obtain ⟨c, t, hct, hdg⟩ := natDigitsAux_head (n + 1) n hlt
  rw [readNat, natDigits, hct, List.cons_append,
    skipWS_cons_of_not c (t ++ rest) (not_ws_of_digit c hdg), ← List.cons_append,
    ← hct, readDigits_natDigitsAux (n + 1) n 0 rest hlt, readDigits_stop rest _ h]
  norm_num

lemma takeTok_of_headWS (s : List Char) (h : headWS s) : takeTok s = ([], s) := by
  cases s with
  | nil => rfl
  | cons c t =>
    rw [headWS] at h
    simp [takeTok, h]

lemma takeTok_append (t rest : List Char) (ht : ∀ c ∈ t, isWS c = false)
    (h : headWS rest) : takeTok (t ++ rest) = (t, rest) := by
  induction t with
  | nil => simpa using takeTok_of_headWS rest h
  | cons c t' ih =>
    rw [List.cons_append, takeTok]
    rw [ht c (List.mem_cons_self c t')]
    simp only [Bool.false_eq_true, if_false]
    rw [ih (fun d hd => ht d (List.mem_cons_of_mem c hd))]

lemma readToken_cons_ws (c : Char) (s : List Char) (h : isWS c = true) :
    readToken (c :: s) = readToken s := by
  rw [readToken, readToken, skipWS_cons_of_ws c s h]

lemma readToken_of (t rest : List Char) (hne : t ≠ [])
    (ht : ∀ c ∈ t, isWS c = false) (h : headWS rest) :
    readToken (t ++ rest) = (t, rest) := by
  rcases t with _ | ⟨c, t'⟩
  · exact absurd rfl hne
  · rw [readToken, List.cons_append,
      skipWS_cons_of_not c (t' ++ rest) (ht c (List.mem_cons_self c t')),
      ← List.cons_append, takeTok_append _ _ ht h]

lemma natDigits_digits (n : Nat) : ∀ c ∈ natDigits n, isDigit c = true :=
  natDigitsAux_digits (n + 1) n (Nat.lt_succ_self n)

lemma natDigits_not_ws (n : Nat) : ∀ c ∈ natDigits n, isWS c = false :=
  fun c hc => not_ws_of_digit c (natDigits_digits n c hc)

lemma natDigits_ne_nil (n : Nat) : natDigits n ≠ [] :=
  natDigitsAux_ne_nil (n + 1) n (Nat.lt_succ_self n)

lemma saveIdsRest_headWS (rl : List Nat) : headWS (saveIdsRest rl) := by
  cases rl with
  | nil =>
    show isWS ' ' = true
    decide
  | cons j rl' =>
    show isWS ' ' = true
    decide

lemma saveIdsRest_len (rl : List Nat) : rl.length ≤ (saveIdsRest rl).length := by
  induction rl with
  | nil => decide
  | cons j rl' ih =>
    simp only [saveIdsRest, List.length_cons, List.length_append]
    omega

lemma saveIdsRest_split : ∀ rl : List Nat, ∃ inner : List Char,
    saveIdsRest rl = inner ++ [']'] ∧ ∀ c ∈ inner, c ≠ '[' ∧ c ≠ ']' := by
  intro rl
  induction rl with
  | nil => exact ⟨[' '], rfl, by decide⟩
  | cons j rl' ih =>
    obtain ⟨inner', heq, hfree⟩ := ih
    refine ⟨' ' :: ',' :: ' ' :: (natDigits j ++ inner'), ?_, ?_⟩
    · rw [saveIdsRest, heq]
      simp [List.append_assoc]
    · intro c hc
      simp only [List.mem_cons, List.mem_append] at hc
      rcases hc with rfl | rfl | rfl | hc | hc
      · decide
      · decide
      · decide
      · exact digit_ne_brackets c (natDigits_digits j c hc)
      · exact hfree c hc

lemma bracketLoop_copy : ∀ (xs rest acc : List Char),
    (∀ c ∈ xs, c ≠ '[' ∧ c ≠ ']') →
    bracketLoop (xs ++ ']' :: rest) 1 acc = (acc ++ (xs ++ [']']), rest) := by
  intro xs
  induction xs with
  | nil =>
    intro rest acc _
    rw [List.nil_append, bracketLoop, if_neg (by decide), if_pos rfl, bracketLoop]
    simp
  | cons c xs' ih =>
    intro rest acc hfree
    obtain ⟨hc1, hc2⟩ := hfree c (List.mem_cons_self c xs')
    rw [List.cons_append, bracketLoop, if_neg hc1, if_neg hc2,
      ih rest (acc ++ [c]) (fun d hd => hfree d (List.mem_cons_of_mem c hd))]
    simp

lemma parseIdsLoop_save : ∀ (rl : List Nat) (fuel i : Nat) (acc : List Nat),
    rl.length < fuel →
    parseIdsLoop fuel (' ' :: (natDigits i ++ saveIdsRest rl)) acc =
      (acc ++ i :: rl, []) := by
  intro rl
  induction rl with
  | nil =>
    intro fuel i acc hf
    cases fuel with
    | zero => omega
    | succ f =>
      have h1 : readNat (' ' :: (natDigits i ++ saveIdsRest [])) = (i, saveIdsRest []) := by
        rw [readNat_cons_ws _ _ (by decide)]
        exact readNat_print i _ (by show isDigit ' ' = false; decide)
      have h2 : readToken (saveIdsRest ([] : List Nat)) = ([']'], []) := by
        show readToken [' ', ']'] = ([']'], [])
        decide
      simp only [parseIdsLoop, h1, h2]
      rw [if_neg (by decide)]
  | cons j rl' ih =>
    intro fuel i acc hf
    cases fuel with
    | zero => simp at hf
    | succ f =>
      have h1 : readNat (' ' :: (natDigits i ++ saveIdsRest (j :: rl'))) =
          (i, saveIdsRest (j :: rl')) := by
        rw [readNat_cons_ws _ _ (by decide)]
        refine readNat_print i _ ?_
        show isDigit ' ' = false
        decide
      have h2 : readToken (saveIdsRest (j :: rl')) =
          ([','], ' ' :: (natDigits j ++ saveIdsRest rl')) := by
        rw [saveIdsRest, readToken_cons_ws _ _ (by decide)]
        exact readToken_of [','] _ (by decide) (by decide)
          (by show isWS ' ' = true; decide)
      simp only [parseIdsLoop, h1, h2]
      rw [if_pos trivial, ih f j (acc ++ [i]) (by simp at hf; omega)]
      simp

lemma readBracketList_cons_ws (c : Char) (s : List Char) (h : isWS c = true) :
    readBracketList (c :: s) = readBracketList s := by
  rw [readBracketList, readBracketList, readToken_cons_ws c s h]

lemma readBracketList_save (ids : List Nat) (rest : List Char) :
    readBracketList (saveBracketList ids ++ rest) = (ids, rest) := by
  cases ids with
  | nil =>
    have hp0 : readToken (saveBracketList ([] : List Nat) ++ rest) =
        (['['], ' ' :: ']' :: rest) := by
      show readToken (['['] ++ (' ' :: ']' :: rest)) = _
      exact readToken_of ['['] _ (by decide) (by decide) (by show isWS ' ' = true; decide)
    have hloop : bracketLoop (' ' :: ']' :: rest) 1 ['['] = (['[', ' ', ']'], rest) :=
      bracketLoop_copy [' '] rest ['['] (by decide)
    have hq1 : readToken ['[', ' ', ']'] = (['['], [' ', ']']) := by decide
    have hq2 : readToken [' ', ']'] = ([']'], []) := by decide
    simp only [readBracketList, hp0, hloop, hq1, hq2]
    simp
  | cons i rl =>
    obtain ⟨inner, hsplit, hfree⟩ := saveIdsRest_split rl
    have hp0 : readToken (saveBracketList (i :: rl) ++ rest) =
        (['['], (' ' :: (natDigits i ++ saveIdsRest rl)) ++ rest) := by
      show readToken ((['['] ++ (' ' :: (natDigits i ++ saveIdsRest rl))) ++ rest) = _
      rw [List.append_assoc]
      exact readToken_of ['['] _ (by decide) (by decide) (by show isWS ' ' = true; decide)
    have hfree2 : ∀ c ∈ ' ' :: (natDigits i ++ inner), c ≠ '[' ∧ c ≠ ']' := by
      intro c hc
      simp only [List.mem_cons, List.mem_append] at hc
      rcases hc with rfl | hc | hc
      · decide
      · exact digit_ne_brackets c (natDigits_digits i c hc)
      · exact hfree c hc
    have hloop : bracketLoop ((' ' :: (natDigits i ++ saveIdsRest rl)) ++ rest) 1 ['['] =
        (saveBracketList (i :: rl), rest) := by
      have hxs : (' ' :: (natDigits i ++ saveIdsRest rl)) ++ rest =
          (' ' :: (natDigits i ++ inner)) ++ ']' :: rest := by
        rw [hsplit]
        simp [List.append_assoc]
      rw [hxs, bracketLoop_copy (' ' :: (natDigits i ++ inner)) rest ['['] hfree2,
        saveBracketList, hsplit]
      simp [List.append_assoc]
    have hq1 : readToken (saveBracketList (i :: rl)) =
        (['['], ' ' :: (natDigits i ++ saveIdsRest rl)) := by
      show readToken (['['] ++ (' ' :: (natDigits i ++ saveIdsRest rl))) = _
      exact readToken_of ['['] _ (by decide) (by decide) (by show isWS ' ' = true; decide)
    have hq2 : readToken (' ' :: (natDigits i ++ saveIdsRest rl)) =
        (natDigits i, saveIdsRest rl) := by
      rw [readToken_cons_ws _ _ (by decide)]
      exact readToken_of (natDigits i) (saveIdsRest rl) (natDigits_ne_nil i)
        (natDigits_not_ws i) (saveIdsRest_headWS rl)
    have hne2 : ¬ (natDigits i = [']']) := by
      intro h
      have hd : isDigit ']' = true :=
        natDigits_digits i ']' (by rw [h]; exact List.mem_cons_self ']' [])
      exact absurd hd (by decide)
    have hlen : rl.length < (saveBracketList (i :: rl)).length + 1 := by
      have h1 := saveIdsRest_len rl
      simp only [saveBracketList, List.length_cons, List.length_append]
      omega
    simp only [readBracketList, hp0, hloop, hq1, hq2]
    rw [if_neg hne2, parseIdsLoop_save rl _ i [] hlen]
    simp

lemma headNotDigit_saveHalfedges (hs : List (Nat × Bool)) (tail : List Char)
    (h : headNotDigit tail) : headNotDigit (saveHalfedges hs ++ tail) := by
  cases hs with
  | nil => simpa using h
  | cons hh t =>
    show isDigit ' ' = false
    decide

lemma headNotDigit_saveCyclesRest (cs : List AnimatedCycle) (tail : List Char)
    (h : headNotDigit tail) : headNotDigit (saveCyclesRest cs ++ tail) := by
  cases cs with
  | nil => simpa using h
  | cons c t =>
    show isDigit ' ' = false
    decide

lemma readHalfedges_save : ∀ (hs : List (Nat × Bool)) (tail : List Char),
    headNotDigit tail →
    readHalfedges hs.length (saveHalfedges hs ++ tail) = (hs, tail) := by
  intro hs
  induction hs with
  | nil => intro tail _; rfl
  | cons hh t ih =>
    intro tail htail
    obtain ⟨a, b⟩ := hh
    have h1 : readNat (' ' :: (natDigits a ++ (' ' ::
        (natDigits (if b then 1 else 0) ++ (saveHalfedges t ++ tail))))) =
        (a, ' ' :: (natDigits (if b then 1 else 0) ++ (saveHalfedges t ++ tail))) := by
      rw [readNat_cons_ws _ _ (by decide)]
      exact readNat_print a _ (by show isDigit ' ' = false; decide)
    have h2 : readNat (' ' :: (natDigits (if b then 1 else 0) ++ (saveHalfedges t ++ tail))) =
        ((if b then 1 else 0), saveHalfedges t ++ tail) := by
      rw [readNat_cons_ws _ _ (by decide)]
      exact readNat_print _ _ (headNotDigit_saveHalfedges t tail htail)
    rw [show saveHalfedges ((a, b) :: t) ++ tail = ' ' :: (natDigits a ++ (' ' ::
      (natDigits (if b then 1 else 0) ++ (saveHalfedges t ++ tail)))) from by
        simp [saveHalfedges, saveHalfedge, List.append_assoc]]
    simp only [List.length_cons, readHalfedges, h1, h2, ih tail htail]
    cases b <;> simp

lemma readCyclesLoop_save : ∀ (cs : List AnimatedCycle) (tail : List Char),
    headNotDigit tail →
    readCyclesLoop cs.length (saveCyclesRest cs ++ tail) =
      (cs.map (fun c => loadedCycle c.halfedges), tail) := by
  intro cs
  induction cs with
  | nil => intro tail _; rfl
  | cons c t ih =>
    intro tail htail
    have h1 : readNat (' ' :: (natDigits c.halfedges.length ++
        (saveHalfedges c.halfedges ++ (saveCyclesRest t ++ tail)))) =
        (c.halfedges.length, saveHalfedges c.halfedges ++ (saveCyclesRest t ++ tail)) := by
      rw [readNat_cons_ws _ _ (by decide)]
      exact readNat_print _ _
        (headNotDigit_saveHalfedges c.halfedges _ (headNotDigit_saveCyclesRest t tail htail))
    have h2 := readHalfedges_save c.halfedges (saveCyclesRest t ++ tail)
      (headNotDigit_saveCyclesRest t tail htail)
    rw [show saveCyclesRest (c :: t) ++ tail = ' ' :: (natDigits c.halfedges.length ++
      (saveHalfedges c.halfedges ++ (saveCyclesRest t ++ tail))) from by
        simp [saveCyclesRest, saveCycle, List.append_assoc]]
    simp only [List.length_cons, readCyclesLoop, h1, h2, ih tail htail]
    simp [List.map_cons]

lemma readCycles_save (cs : List AnimatedCycle) (tail : List Char)
    (htail : headNotDigit tail) :
    readCycles (' ' :: (saveCycles cs ++ tail)) =
      (cs.map (fun c => loadedCycle c.halfedges), tail) := by
  have h1 : readNat (' ' :: (saveCycles cs ++ tail)) =
      (cs.length, saveCyclesRest cs ++ tail) := by
    rw [readNat_cons_ws _ _ (by decide),
      show saveCycles cs ++ tail = natDigits cs.length ++ (saveCyclesRest cs ++ tail) from by
        simp [saveCycles, List.append_assoc]]
    exact readNat_print _ _ (headNotDigit_saveCyclesRest cs tail htail)
  simp only [readCycles, h1]
  exact readCyclesLoop_save cs tail htail

lemma readField_newField (name rest : List Char) (hne : name ≠ [])
    (hn : ∀ c ∈ name, isWS c = false) :
    readField (newField name ++ rest) = ' ' :: rest := by
  have h1 : readToken (newField name ++ rest) = (name, ' ' :: ':' :: ' ' :: rest) := by
    rw [show newField name ++ rest = '\n' :: (name ++ (' ' :: ':' :: ' ' :: rest)) from by
      simp [newField, List.append_assoc]]
    rw [readToken_cons_ws _ _ (by decide)]
    exact readToken_of name _ hne hn (by show isWS ' ' = true; decide)
  have h2 : readToken (' ' :: ':' :: ' ' :: rest) = ([':'], ' ' :: rest) := by
    rw [readToken_cons_ws _ _ (by decide)]
    exact readToken_of [':'] _ (by decide) (by decide) (by show isWS ' ' = true; decide)
  simp only [readField, h1, h2]

lemma loadPhase1_save (f : InbetweenFace) (bl al : List Nat) :
    loadPhase1 (f.save_ bl al) =
      (f.cycles_.map (fun c => loadedCycle c.halfedges), bl, al) := by
  have e1 : readField (f.save_ bl al) = ' ' :: (saveCycles f.cycles_ ++
      (newField "BeforeFaces".toList ++ (saveBracketList bl ++
        (newField "AfterFaces".toList ++ saveBracketList al)))) := by
    rw [show f.save_ bl al = newField "Cycles".toList ++ (saveCycles f.cycles_ ++
      (newField "BeforeFaces".toList ++ (saveBracketList bl ++
        (newField "AfterFaces".toList ++ saveBracketList al)))) from by
        simp [InbetweenFace.save_, List.append_assoc]]
    exact readField_newField _ _ (by decide) (by decide)
  have e2 : readCycles (' ' :: (saveCycles f.cycles_ ++
      (newField "BeforeFaces".toList ++ (saveBracketList bl ++
        (newField "AfterFaces".toList ++ saveBracketList al))))) =
      (f.cycles_.map (fun c => loadedCycle c.halfedges),
        newField "BeforeFaces".toList ++ (saveBracketList bl ++
          (newField "AfterFaces".toList ++ saveBracketList al))) :=
    readCycles_save _ _ (by show isDigit '\n' = false; decide)
  have e3 : readField (newField "BeforeFaces".toList ++ (saveBracketList bl ++
      (newField "AfterFaces".toList ++ saveBracketList al))) =
      ' ' :: (saveBracketList bl ++
        (newField "AfterFaces".toList ++ saveBracketList al)) :=
    readField_newField _ _ (by decide) (by decide)
  have e4 : readBracketList (' ' :: (saveBracketList bl ++
      (newField "AfterFaces".toList ++ saveBracketList al))) =
      (bl, newField "AfterFaces".toList ++ saveBracketList al) := by
    rw [readBracketList_cons_ws _ _ (by decide)]
    exact readBracketList_save bl _
  have e5 : readField (newField "AfterFaces".toList ++ saveBracketList al) =
      ' ' :: saveBracketList al :=
    readField_newField _ _ (by decide) (by decide)
  have e6 : readBracketList (' ' :: saveBracketList al) = (al, []) := by
    rw [readBracketList_cons_ws _ _ (by decide),
      show saveBracketList al = saveBracketList al ++ [] from (List.append_nil _).symm]
    exact readBracketList_save al []
  simp only [loadPhase1, e1, e2, e3, e4, e5, e6]

lemma read2ndPassFaces_of_subset (live : Finset Nat) :
    ∀ l : List Nat, (∀ x ∈ l, x ∈ live) →
      read2ndPassFaces live l = some l.toFinset := by
  intro l
  induction l with
  | nil => intro _; rfl
  | cons a t ih =>
    intro h
    rw [read2ndPassFaces, if_pos (h a (List.mem_cons_self a t)),
      ih (fun x hx => h x (List.mem_cons_of_mem a hx))]
    simp

/-- C3 — Serialization round-trip: saving an `InbetweenFace` through the text
encoding (including the `[ ]` empty-list case) and loading it back through
phase 1 and the second-pass identity resolution reconstructs an equal
before-face set, an equal after-face set, and equal cycle topology (the
ordered identity+direction lists).  `blist`/`alist` are the save-time
iteration orders of the two sets, and every saved identity must resolve to a
live cell. -/
theorem save_load_roundtrip (f : InbetweenFace) (blist alist : List Nat)
    (live : Finset Nat)
    (hb : blist.toFinset = f.beforeFaces_) (ha : alist.toFinset = f.afterFaces_)
    (hbl : ∀ x ∈ blist, x ∈ live) (hal : ∀ x ∈ alist, x ∈ live) :
    (loadPhase1 (f.save_ blist alist)).1.map (fun c => c.halfedges) =
      f.cycles_.map (fun c => c.halfedges) ∧
    read2ndPassFaces live (loadPhase1 (f.save_ blist alist)).2.1 =
      some f.beforeFaces_ ∧
    read2ndPassFaces live (loadPhase1 (f.save_ blist alist)).2.2 =
      some f.afterFaces_ := by
  rw [loadPhase1_save f blist alist]
  refine ⟨?_, ?_, ?_⟩
  · simp [loadedCycle, List.map_map, Function.comp]
  · show read2ndPassFaces live blist = some f.beforeFaces_
    rw [read2ndPassFaces_of_subset live blist hbl, hb]
  · show read2ndPassFaces live alist = some f.afterFaces_
    rw [read2ndPassFaces_of_subset live alist hal, ha]

/-- C3 (witness) — concrete round-trip: a face with one two-halfedge cycle,
before faces `{1, 2}` saved in order `[1, 2]`, and an empty after-face set
(the `[ ]` encoding), against a registry with cells 1 and 2 alive. -/
theorem save_load_roundtrip_witness :
    ([1, 2] : List Nat).toFinset = faceC3.beforeFaces_ ∧
    ([] : List Nat).toFinset = faceC3.afterFaces_ ∧
    (loadPhase1 (faceC3.save_ [1, 2] [])).1.map (fun c => c.halfedges) =
      faceC3.cycles_.map (fun c => c.halfedges) ∧
    read2ndPassFaces {1, 2} (loadPhase1 (faceC3.save_ [1, 2] [])).2.1 =
      some faceC3.beforeFaces_ ∧
    read2ndPassFaces {1, 2} (loadPhase1 (faceC3.save_ [1, 2] [])).2.2 =
      some faceC3.afterFaces_ :=
  ⟨by decide, by decide,
   (save_load_roundtrip faceC3 [1, 2] [] {1, 2} (by decide) (by decide)
     (by decide) (by decide)).1,
   (save_load_roundtrip faceC3 [1, 2] [] {1, 2} (by decide) (by decide)
     (by decide) (by decide)).2.1,
   (save_load_roundtrip faceC3 [1, 2] [] {1, 2} (by decide) (by decide)
     (by decide) (by decide)).2.2⟩

/-- C8 — At second-pass load, an identity with no live cell makes the code
dereference the null result of `getCell` (modelled as `none`, a crash /
undefined behavior) instead of failing with the `UnresolvedIdentityError`
that the spec's error design prescribes (the spec-modelled resolver shown
alongside). -/
theorem read2ndPass_unresolved_crash :
    read2ndPassFaces ∅ [42] = none ∧
    resolveFacesSpec ∅ [42] = Except.error LoadError.unresolvedIdentity := by
  exact ⟨rfl, rfl⟩

end VPaint
